import Mathlib

/-!
Verification of the SSE log analyzer (analyze_sse.py).

The analyzer reads a log file line by line, extracts JSON payloads that follow
the literal marker "SSE line: data: ", keeps "message.part.updated" events,
groups the part updates by (messageID, part id) in insertion order, and then
walks each part history pairwise to flag updates whose text is not an
extension of the immediately preceding text.  On such a violation it computes
the longest common prefix of the two texts and, when that prefix is not empty,
records a divergence finding.

This file gives a shallow embedding of that program.  JSON values are
modelled by the inductive `JVal` (numbers as integers; the analyzer never
relies on float behavior).  The external JSON parser (Python `json.loads`)
is modelled as an explicit function argument of type
`String → Except Unit JVal`, failure standing for `json.JSONDecodeError`.
Python exceptions that escape the analyzer (an `AttributeError` raised by
calling `.get` on a parsed value that is not a dict) are modelled by
`Except PyError`.  Log lines are modelled without their trailing newline,
which the regex `SSE line: data: (.+)` never captures anyway.
-/

namespace SseAnalyze

mutual

/-- A JSON value as produced by the external parser.  Object fields are kept
in order; Python dicts produced by `json.loads` have unique keys. -/
inductive JVal where
  | jnull
  | jbool (b : Bool)
  | jnum (n : Int)
  | jstr (s : String)
  | jarr (elems : JArr)
  | jobj (fields : JObj)
deriving DecidableEq

/-- A list of JSON values (array elements). -/
inductive JArr where
  | nil
  | cons (hd : JVal) (tl : JArr)
deriving DecidableEq

/-- An ordered association list of JSON object fields. -/
inductive JObj where
  | nil
  | cons (key : String) (val : JVal) (tl : JObj)
deriving DecidableEq

end

/-- Field lookup in a JSON object, first match (keys are unique in dicts
coming from the JSON parser). -/
def jlookup : JObj → String → Option JVal
  | JObj.nil, _ => none
  | JObj.cons k v rest, key => if k = key then some v else jlookup rest key

/-- Python truthiness of a JSON value: `None`, `False`, `0`, and empty
strings, arrays and objects are falsy, everything else truthy.  This is the
test `if message_id and part_id:` performs. -/
def truthy : JVal → Bool
  | JVal.jnull => false
  | JVal.jbool b => b
  | JVal.jnum n => decide (n ≠ 0)
  | JVal.jstr s => decide (s ≠ "")
  | JVal.jarr a => decide (a ≠ JArr.nil)
  | JVal.jobj o => decide (o ≠ JObj.nil)

/-- The only Python exception the analyzer can let escape while scanning
lines: calling `.get` on a value that is not a dict. -/
inductive PyError where
  | attributeError
deriving DecidableEq

/-- The text stored for a part update.  The documented event shape has a
string `text` field; an absent field defaults to the empty string exactly as
the part.get call with an empty default does.  A non-string `text` value lies
outside the documented shape and is modelled as the empty string (the
original stores the raw value, which only its reporting phase touches). -/
def jtext : JVal → String
  | JVal.jstr s => s
  | _ => ""

/-- Python `value.get(key)`: field lookup when `value` is a dict, an
`AttributeError` otherwise. -/
def dictGetOpt : JVal → String → Except PyError (Option JVal)
  | JVal.jobj fs, key => Except.ok (jlookup fs key)
  | _, _ => Except.error PyError.attributeError

/-- Python `value.get(key, default)`: lookup with a default when `value` is a
dict, an `AttributeError` otherwise. -/
def dictGetD (v : JVal) (key : String) (d : JVal) : Except PyError JVal :=
  match v with
  | JVal.jobj fs => Except.ok ((jlookup fs key).getD d)
  | _ => Except.error PyError.attributeError

/-- One stored update of a message part: the dict with keys text, type and
full_data built at line 34 of analyze_sse.py. -/
structure PartUpdate where
  text : String
  ptype : Option JVal
  fullData : JVal
deriving DecidableEq

/-- A part update together with the grouping keys extracted from
`properties.part`: the data appended to `message_parts[message_id][part_id]`. -/
structure RecordedEvent where
  message_id : JVal
  part_id : JVal
  update : PartUpdate
deriving DecidableEq

/-- One entry of the `prefix_changes` list built at line 84 of
analyze_sse.py. -/
structure Finding where
  message_id : JVal
  part_id : JVal
  update_num : Nat
  prev : String
  curr : String
  commonPrefix : String
deriving DecidableEq

/-- The characters of the SSE marker of the pattern
`SSE line: data: (.+)`. -/
def sseMarker : List Char := "SSE line: data: ".data

/-- Remainder of the line after the leftmost occurrence of `marker`, if
any. -/
def splitFirst (marker : List Char) : List Char → Option (List Char)
  | [] => none
  | c :: rest =>
    if List.isPrefixOf marker (c :: rest) then
      some (List.drop marker.length (c :: rest))
    else splitFirst marker rest

/-- The Line Extractor: `re.search` of `SSE line: data: (.+)` and
`match.group(1)`.  The payload is everything after the leftmost marker up to
the end of the line and must be at least one character. -/
def extractPayload (line : String) : Option String :=
  match splitFirst sseMarker line.data with
  | none => none
  | some [] => none
  | some (c :: cs) => some (String.mk (c :: cs))

/-- The Event Filter and Projector applied to a parsed payload, mirroring
lines 23 to 39 of analyze_sse.py step by step: check that the type field of
the payload equals the sentinel message.part.updated, then take the
properties field defaulting to an empty dict, its part field defaulting to an
empty dict, read messageID, id, text and type from the part, and keep the
update only when messageID and id are both truthy.  Every attribute access of
get on a non-dict raises AttributeError. -/
def eventOfPayload (data : JVal) : Except PyError (Option RecordedEvent) :=
  match dictGetOpt data "type" with
  | Except.error e => Except.error e
  | Except.ok tv =>
    if tv = some (JVal.jstr "message.part.updated") then
      match dictGetD data "properties" (JVal.jobj JObj.nil) with
      | Except.error e => Except.error e
      | Except.ok props =>
        match dictGetD props "part" (JVal.jobj JObj.nil) with
        | Except.error e => Except.error e
        | Except.ok part =>
          match dictGetOpt part "messageID" with
          | Except.error e => Except.error e
          | Except.ok mv =>
            match dictGetOpt part "id" with
            | Except.error e => Except.error e
            | Except.ok pv =>
              match dictGetD part "text" (JVal.jstr "") with
              | Except.error e => Except.error e
              | Except.ok tval =>
                match dictGetOpt part "type" with
                | Except.error e => Except.error e
                | Except.ok ptv =>
                  match mv, pv with
                  | some m, some p =>
                    if truthy m && truthy p then
                      Except.ok (some
                        { message_id := m, part_id := p,
                          update := { text := jtext tval, ptype := ptv,
                                      fullData := part } })
                    else Except.ok none
                  | _, _ => Except.ok none
    else Except.ok none

/-- Processing of one raw log line: extract the payload, parse it with the
external JSON parser (`parse`), treat a parse failure as
`json.JSONDecodeError` and skip the line, and otherwise filter and project
the event. -/
def processLine (parse : String → Except Unit JVal) (line : String) :
    Except PyError (Option RecordedEvent) :=
  match extractPayload line with
  | none => Except.ok none
  | some payload =>
    match parse payload with
    | Except.error _ => Except.ok none
    | Except.ok data => eventOfPayload data

/-- The nested grouping structure `message_parts`: messages in first-seen
order, each with its parts in first-seen order, each with its updates in
arrival order. -/
abbrev PartsMap : Type := List (JVal × List (JVal × List PartUpdate))

/-- Append an update to the history of `pid` inside the part map of one
message, creating the entry at the end when `pid` is new (defaultdict
behavior, insertion ordered). -/
def appendInner (ps : List (JVal × List PartUpdate)) (pid : JVal)
    (u : PartUpdate) : List (JVal × List PartUpdate) :=
  match ps with
  | [] => [(pid, [u])]
  | (k, us) :: rest =>
    if k = pid then (k, us ++ [u]) :: rest
    else (k, us) :: appendInner rest pid u

/-- Append an update to `message_parts[mid][pid]`, creating entries at the
end when the keys are new (nested defaultdict, insertion ordered). -/
def appendUpdate (m : PartsMap) (mid pid : JVal) (u : PartUpdate) : PartsMap :=
  match m with
  | [] => [(mid, [(pid, [u])])]
  | (k, ps) :: rest =>
    if k = mid then (k, appendInner ps pid u) :: rest
    else (k, ps) :: appendUpdate rest mid pid u

/-- The reading loop of analyze_sse.py (lines 15 to 42): process the lines in
order, accumulate recorded events into the grouping structure, and abort the
whole run on the first uncaught exception. -/
def collectParts (parse : String → Except Unit JVal) :
    List String → PartsMap → Except PyError PartsMap
  | [], acc => Except.ok acc
  | line :: rest, acc =>
    match processLine parse line with
    | Except.error e => Except.error e
    | Except.ok none => collectParts parse rest acc
    | Except.ok (some ev) =>
      collectParts parse rest (appendUpdate acc ev.message_id ev.part_id ev.update)

/-- Association lookup keyed by a JSON value. -/
def lookupA {α : Type} : List (JVal × α) → JVal → Option α
  | [], _ => none
  | (k, v) :: rest, key => if k = key then some v else lookupA rest key

/-- The recorded history of one (message, part) pair, empty when the pair was
never seen. -/
def partHistory (m : PartsMap) (mid pid : JVal) : List PartUpdate :=
  (lookupA ((lookupA m mid).getD []) pid).getD []

/-- The longest-common-prefix scan of lines 74 to 79 of analyze_sse.py:
compare characters left to right, keep them while equal, stop at the first
mismatch or when the shorter string ends. -/
def lcpChars : List Char → List Char → List Char
  | a :: as, b :: bs => if a = b then a :: lcpChars as bs else []
  | _, _ => []

/-- String form of the longest-common-prefix scan. -/
def lcpString (a b : String) : String := String.mk (lcpChars a.data b.data)

/-- Python `s.startswith(pre)`. -/
def pyStartswith (s pre : String) : Bool := List.isPrefixOf pre.data s.data

/-- The Additivity Analyzer loop over one part history (lines 58 to 100 of
analyze_sse.py): walk the updates with `prev_text` starting empty and the
enumeration index starting at 0, flag a violation when both texts are
non-empty and the current text does not start with the previous one, record
a finding only when the common prefix is non-empty, and always set
`prev_text` to the current text afterwards.  Returns the contribution to
`erasure_found` and the findings in discovery order. -/
def analyzeLoop (mid pid : JVal) :
    List PartUpdate → String → Nat → Bool × List Finding
  | [], _, _ => (false, [])
  | u :: rest, prev_text, i =>
    let text := u.text
    let step : Bool × List Finding :=
      if prev_text ≠ "" ∧ text ≠ "" then
        if pyStartswith text prev_text = false then
          (true,
            if lcpString prev_text text ≠ "" then
              [{ message_id := mid, part_id := pid, update_num := i + 1,
                 prev := prev_text, curr := text,
                 commonPrefix := lcpString prev_text text }]
            else [])
        else (false, [])
      else (false, [])
    let restRes := analyzeLoop mid pid rest text (i + 1)
    (step.1 || restRes.1, step.2 ++ restRes.2)

/-- Analysis of all parts of one message, accumulating the erasure flag and
the findings in iteration order. -/
def analyzeMsg (mid : JVal) : List (JVal × List PartUpdate) → Bool × List Finding
  | [] => (false, [])
  | (pid, us) :: rest =>
    let a := analyzeLoop mid pid us "" 0
    let b := analyzeMsg mid rest
    (a.1 || b.1, a.2 ++ b.2)

/-- Analysis of the whole grouping structure: `erasure_found` and
`prefix_changes` of analyze_sse.py (lines 47 to 100). -/
def analyzeAllParts : PartsMap → Bool × List Finding
  | [] => (false, [])
  | (mid, ps) :: rest =>
    let a := analyzeMsg mid ps
    let b := analyzeAllParts rest
    (a.1 || b.1, a.2 ++ b.2)

/-- The whole run of `analyze_sse_logs` on the lines of the log file:
collect the grouped updates, then analyze them.  Returns the grouping
structure, the erasure flag and the findings list; an uncaught exception
aborts the run with no result. -/
def analyze_sse_logs (parse : String → Except Unit JVal) (lines : List String) :
    Except PyError (PartsMap × Bool × List Finding) :=
  match collectParts parse lines [] with
  | Except.error e => Except.error e
  | Except.ok m =>
    let r := analyzeAllParts m
    Except.ok (m, r.1, r.2)

/-- The contribution of a single adjacent comparison to `prefix_changes`:
at most one finding, produced exactly when both texts are non-empty, the
current text does not start with the previous one, and their common prefix
is non-empty. -/
def pairFinding (mid pid : JVal) (idx : Nat) (prev text : String) :
    Option Finding :=
  if prev ≠ "" ∧ text ≠ "" ∧ pyStartswith text prev = false then
    if lcpString prev text ≠ "" then
      some { message_id := mid, part_id := pid, update_num := idx,
             prev := prev, curr := text, commonPrefix := lcpString prev text }
    else none
  else none

/-- Whether a single adjacent comparison sets `erasure_found`. -/
def pairViolates (prev text : String) : Bool :=
  decide (prev ≠ "" ∧ text ≠ "" ∧ pyStartswith text prev = false)

/-- The adjacent comparisons performed over a history: for texts
`[t0, t1, ...]` starting from baseline `prev` at enumeration index `i`,
the triples (one-based update number, previous text, current text). -/
def adjPairs (prev : String) (i : Nat) : List String → List (Nat × String × String)
  | [] => []
  | t :: rest => (i + 1, prev, t) :: adjPairs t (i + 1) rest

/-- A bare part update used in concrete runs: a text with no `type` field and
an empty `full_data`. -/
def upd (s : String) : PartUpdate :=
  { text := s, ptype := none, fullData := JVal.jobj JObj.nil }

/-- A concrete `properties.part` object of the documented shape. -/
def partObj (mid pid text : String) : JVal :=
  JVal.jobj (JObj.cons "messageID" (JVal.jstr mid)
    (JObj.cons "id" (JVal.jstr pid)
      (JObj.cons "text" (JVal.jstr text)
        (JObj.cons "type" (JVal.jstr "text") JObj.nil))))

/-- A concrete `message.part.updated` event of the documented shape. -/
def updEvent (mid pid text : String) : JVal :=
  JVal.jobj (JObj.cons "type" (JVal.jstr "message.part.updated")
    (JObj.cons "properties"
      (JVal.jobj (JObj.cons "part" (partObj mid pid text) JObj.nil)) JObj.nil))

/-- A concrete stand-in for the external JSON parser, defined on the payload
strings used in the concrete runs of this development: two well-formed part
update events and one payload that is valid JSON but an array, not an
object. -/
def parseStub (s : String) : Except Unit JVal :=
  if s = "good1" then Except.ok (updEvent "m1" "p1" "Hel")
  else if s = "good2" then Except.ok (updEvent "m1" "p1" "Hello")
  else if s = "[1, 2]" then
    Except.ok (JVal.jarr (JArr.cons (JVal.jnum 1)
      (JArr.cons (JVal.jnum 2) JArr.nil)))
  else Except.error ()

/-! Helper lemmas about the longest-common-prefix scan. -/

theorem lcpChars_prefix_left (a b : List Char) : lcpChars a b <+: a := by
  induction a generalizing b with
  | nil => cases b <;> simp [lcpChars]
  | cons x xs ih =>
    cases b with
    | nil => simp [lcpChars]
    | cons y ys =>
      by_cases h : x = y
      · simpa [lcpChars, h, List.cons_prefix_cons] using ih ys
      · simp [lcpChars, h]

theorem lcpChars_prefix_right (a b : List Char) : lcpChars a b <+: b := by
  induction a generalizing b with
  | nil => cases b <;> simp [lcpChars]
  | cons x xs ih =>
    cases b with
    | nil => simp [lcpChars]
    | cons y ys =>
      by_cases h : x = y
      · simpa [lcpChars, h, List.cons_prefix_cons] using ih ys
      · simp [lcpChars, h]

theorem lcpChars_longest (a b u : List Char) (ha : u <+: a) (hb : u <+: b) :
    u <+: lcpChars a b := by
  induction u generalizing a b with
  | nil => exact List.nil_prefix
  | cons x xs ih =>
    cases a with
    | nil => simp at ha
    | cons c cs =>
      cases b with
      | nil => simp at hb
      | cons d ds =>
        rw [List.cons_prefix_cons] at ha hb
        obtain ⟨hxc, ha2⟩ := ha
        obtain ⟨hxd, hb2⟩ := hb
        subst hxc
        simp [lcpChars, ← hxd, List.cons_prefix_cons]
        exact ih cs ds ha2 hb2

theorem lcpChars_self (a : List Char) : lcpChars a a = a := by
  induction a with
  | nil => rfl
  | cons x xs ih => simp [lcpChars, ih]

theorem lcpString_self (a : String) : lcpString a a = a := by
  cases a with
  | mk d => simp [lcpString, lcpChars_self]

theorem lcpString_data (a b : String) :
    (lcpString a b).data = lcpChars a.data b.data := rfl

theorem pyStartswith_iff (s pre : String) :
    pyStartswith s pre = true ↔ pre.data <+: s.data := by
  simp [pyStartswith, List.isPrefixOf_iff_prefix]

theorem pyStartswith_self (s : String) : pyStartswith s s = true := by
  simp [pyStartswith_iff]

theorem lcpString_eq_left (a b : String) (h : lcpString a b = a) :
    pyStartswith b a = true := by
  rw [pyStartswith_iff]
  have hd : lcpChars a.data b.data = a.data := by
    rw [← lcpString_data, h]
  rw [← hd]
  exact lcpChars_prefix_right a.data b.data

/-! Helper lemmas about single comparison steps of the analyzer. -/

theorem pairFinding_some {mid pid : JVal} {idx : Nat} {A B : String}
    {f : Finding} (h : pairFinding mid pid idx A B = some f) :
    A ≠ "" ∧ B ≠ "" ∧ pyStartswith B A = false ∧ lcpString A B ≠ "" ∧
    f = { message_id := mid, part_id := pid, update_num := idx, prev := A,
          curr := B, commonPrefix := lcpString A B } := by
  unfold pairFinding at h
  split at h
  · split at h
    · rename_i h1 h2
      obtain ⟨hA, hB, hS⟩ := h1
      exact ⟨hA, hB, hS, h2, (Option.some_inj.1 h).symm⟩
    · cases h
  · cases h

theorem pairFinding_none_of_not_violates {mid pid : JVal} {idx : Nat}
    {A B : String} (h : pairViolates A B = false) :
    pairFinding mid pid idx A B = none := by
  unfold pairViolates at h
  rw [decide_eq_false_iff_not] at h
  unfold pairFinding
  rw [if_neg h]

theorem pairViolates_of_pairFinding {mid pid : JVal} {idx : Nat} {A B : String}
    {f : Finding} (h : pairFinding mid pid idx A B = some f) :
    pairViolates A B = true := by
  obtain ⟨hA, hB, hS, _, _⟩ := pairFinding_some h
  simp [pairViolates, hA, hB, hS]

theorem analyzeLoop_cons_snd (mid pid : JVal) (u : PartUpdate)
    (rest : List PartUpdate) (prev : String) (i : Nat) :
    (analyzeLoop mid pid (u :: rest) prev i).2
      = (pairFinding mid pid (i + 1) prev u.text).toList
          ++ (analyzeLoop mid pid rest u.text (i + 1)).2 := by
  simp only [analyzeLoop, pairFinding]
  by_cases h1 : prev ≠ "" ∧ u.text ≠ ""
  · by_cases h2 : pyStartswith u.text prev = false
    · by_cases h3 : lcpString prev u.text ≠ ""
      · simp [h1, h2, h3, h1.1, h1.2, Option.toList]
      · simp [h1, h2, h3, h1.1, h1.2, Option.toList]
    · simp [h1, h2, h1.1, h1.2, Option.toList]
  · have : ¬ (prev ≠ "" ∧ u.text ≠ "" ∧ pyStartswith u.text prev = false) := by
      intro hc
      exact h1 ⟨hc.1, hc.2.1⟩
    simp [h1, this, Option.toList]

theorem analyzeLoop_cons_fst (mid pid : JVal) (u : PartUpdate)
    (rest : List PartUpdate) (prev : String) (i : Nat) :
    (analyzeLoop mid pid (u :: rest) prev i).1
      = (pairViolates prev u.text || (analyzeLoop mid pid rest u.text (i + 1)).1) := by
  simp only [analyzeLoop, pairViolates]
  by_cases h1 : prev ≠ "" ∧ u.text ≠ ""
  · by_cases h2 : pyStartswith u.text prev = false
    · simp [h1, h2, h1.1, h1.2]
    · simp [h1, h2, h1.1, h1.2]
  · have : ¬ (prev ≠ "" ∧ u.text ≠ "" ∧ pyStartswith u.text prev = false) := by
      intro hc
      exact h1 ⟨hc.1, hc.2.1⟩
    simp [h1, this]

/-! Characterization of the analyzer loop over a whole history. -/

theorem analyzeLoop_snd_eq (mid pid : JVal) (us : List PartUpdate)
    (prev : String) (i : Nat) :
    (analyzeLoop mid pid us prev i).2
      = (adjPairs prev i (us.map (fun u => u.text))).filterMap
          (fun x => pairFinding mid pid x.1 x.2.1 x.2.2) := by
  induction us generalizing prev i with
  | nil => rfl
  | cons u rest ih =>
    rw [analyzeLoop_cons_snd, ih]
    simp only [List.map_cons, adjPairs, List.filterMap_cons]
    cases pairFinding mid pid (i + 1) prev u.text <;> simp [Option.toList]

theorem analyzeLoop_fst_eq (mid pid : JVal) (us : List PartUpdate)
    (prev : String) (i : Nat) :
    (analyzeLoop mid pid us prev i).1
      = (adjPairs prev i (us.map (fun u => u.text))).any
          (fun x => pairViolates x.2.1 x.2.2) := by
  induction us generalizing prev i with
  | nil => rfl
  | cons u rest ih =>
    rw [analyzeLoop_cons_fst, ih]
    simp only [List.map_cons, adjPairs, List.any_cons]

theorem adjPairs_get (ts : List String) (prev : String) (i k : Nat)
    (A B : String) (hA : (prev :: ts).get? k = some A)
    (hB : ts.get? k = some B) :
    (adjPairs prev i ts).get? k = some (i + k + 1, A, B) := by
  induction ts generalizing prev i k with
  | nil => simp at hB
  | cons t rest ih =>
    cases k with
    | zero =>
      rw [List.get?_cons_zero] at hA hB
      obtain rfl := Option.some_inj.1 hA
      obtain rfl := Option.some_inj.1 hB
      rfl
    | succ k2 =>
      rw [List.get?_cons_succ] at hA hB
      have := ih t (i + 1) k2 hA hB
      simp only [adjPairs, List.get?_cons_succ]
      rw [this]
      have harith : i + 1 + k2 + 1 = i + (k2 + 1) + 1 := by omega
      rw [harith]

theorem mem_analyzeLoop (mid pid : JVal) (us : List PartUpdate) (prev : String)
    (i : Nat) (f : Finding) (hf : f ∈ (analyzeLoop mid pid us prev i).2) :
    ∃ k A B, (prev :: us.map (fun u => u.text)).get? k = some A ∧
      (us.map (fun u => u.text)).get? k = some B ∧
      pairFinding mid pid (i + k + 1) A B = some f := by
  revert hf
  induction us generalizing prev i with
  | nil =>
    intro hf
    simp [analyzeLoop] at hf
  | cons u rest ih =>
    intro hf
    rw [analyzeLoop_cons_snd] at hf
    rcases List.mem_append.1 hf with h | h
    · refine ⟨0, prev, u.text, by simp, by simp, ?_⟩
      cases hp : pairFinding mid pid (i + 1) prev u.text with
      | none => rw [hp] at h; simp [Option.toList] at h
      | some g =>
        rw [hp] at h
        simp [Option.toList] at h
        subst h
        rfl
    · obtain ⟨k, A, B, h1, h2, h3⟩ := ih u.text (i + 1) h
      refine ⟨k + 1, A, B, ?_, ?_, ?_⟩
      · simpa using h1
      · simpa using h2
      · have harith : i + (k + 1) + 1 = i + 1 + k + 1 := by omega
        rw [harith]
        exact h3

theorem analyzeLoop_update_num_ge (mid pid : JVal) (us : List PartUpdate)
    (prev : String) (i : Nat) (f : Finding)
    (hf : f ∈ (analyzeLoop mid pid us prev i).2) : i + 1 ≤ f.update_num := by
  obtain ⟨k, A, B, _, _, h3⟩ := mem_analyzeLoop mid pid us prev i f hf
  obtain ⟨_, _, _, _, rfl⟩ := pairFinding_some h3
  change i + 1 ≤ i + k + 1
  omega

theorem analyzeLoop_filter (mid pid : JVal) (us : List PartUpdate)
    (prev : String) (i k : Nat) (A B : String)
    (hA : (prev :: us.map (fun u => u.text)).get? k = some A)
    (hB : (us.map (fun u => u.text)).get? k = some B) :
    (analyzeLoop mid pid us prev i).2.filter
        (fun f => f.update_num == i + k + 1)
      = (pairFinding mid pid (i + k + 1) A B).toList := by
  induction us generalizing prev i k with
  | nil => simp at hB
  | cons u rest ih =>
    rw [analyzeLoop_cons_snd, List.filter_append]
    cases k with
    | zero =>
      simp only [List.map_cons, List.get?_cons_zero] at hA hB
      obtain rfl := Option.some_inj.1 hA
      obtain rfl := Option.some_inj.1 hB
      have hrest :
          (analyzeLoop mid pid rest u.text (i + 1)).2.filter
            (fun f => f.update_num == i + 0 + 1) = [] := by
        rw [List.filter_eq_nil_iff]
        intro f hf
        have := analyzeLoop_update_num_ge mid pid rest u.text (i + 1) f hf
        simp only [beq_iff_eq]
        omega
      rw [hrest, List.append_nil]
      have harith : i + 0 + 1 = i + 1 := by omega
      rw [harith]
      cases hp : pairFinding mid pid (i + 1) prev u.text with
      | none => simp [Option.toList]
      | some g =>
        obtain ⟨_, _, _, _, rfl⟩ := pairFinding_some hp
        simp [Option.toList, List.filter_cons]
    | succ k2 =>
      simp only [List.map_cons, List.get?_cons_succ] at hA hB
      have hfirst :
          (pairFinding mid pid (i + 1) prev u.text).toList.filter
            (fun f => f.update_num == i + (k2 + 1) + 1) = [] := by
        rw [List.filter_eq_nil_iff]
        intro f hf
        cases hp : pairFinding mid pid (i + 1) prev u.text with
        | none => rw [hp] at hf; simp [Option.toList] at hf
        | some g =>
          rw [hp] at hf
          simp [Option.toList] at hf
          subst hf
          obtain ⟨_, _, _, _, rfl⟩ := pairFinding_some hp
          simp only [beq_iff_eq]
          change ¬ (i + 1 = i + (k2 + 1) + 1)
          omega
      rw [hfirst, List.nil_append]
      have harith : i + (k2 + 1) + 1 = i + 1 + k2 + 1 := by omega
      rw [harith]
      exact ih u.text (i + 1) k2 hA hB

/-! Relating the erasure flag to the findings and to violating pairs. -/

theorem analyzeLoop_flag_false (mid pid : JVal) (us : List PartUpdate)
    (prev : String) (i : Nat) (h : (analyzeLoop mid pid us prev i).1 = false) :
    (analyzeLoop mid pid us prev i).2 = [] := by
  induction us generalizing prev i with
  | nil => rfl
  | cons u rest ih =>
    rw [analyzeLoop_cons_fst, Bool.or_eq_false_iff] at h
    rw [analyzeLoop_cons_snd, pairFinding_none_of_not_violates h.1,
      ih u.text (i + 1) h.2]
    rfl

theorem analyzeMsg_flag_false (mid : JVal) (ps : List (JVal × List PartUpdate))
    (h : (analyzeMsg mid ps).1 = false) : (analyzeMsg mid ps).2 = [] := by
  induction ps with
  | nil => rfl
  | cons p rest ih =>
    obtain ⟨pid, us⟩ := p
    simp only [analyzeMsg] at h ⊢
    rw [Bool.or_eq_false_iff] at h
    rw [analyzeLoop_flag_false mid pid us "" 0 h.1, ih h.2]
    rfl

theorem analyzeAllParts_flag_false (m : PartsMap)
    (h : (analyzeAllParts m).1 = false) : (analyzeAllParts m).2 = [] := by
  induction m with
  | nil => rfl
  | cons e rest ih =>
    obtain ⟨mid, ps⟩ := e
    simp only [analyzeAllParts] at h ⊢
    rw [Bool.or_eq_false_iff] at h
    rw [analyzeMsg_flag_false mid ps h.1, ih h.2]
    rfl

theorem analyzeMsg_fst_iff (mid : JVal) (ps : List (JVal × List PartUpdate)) :
    (analyzeMsg mid ps).1 = true ↔
      ∃ p ∈ ps, (analyzeLoop mid p.1 p.2 "" 0).1 = true := by
  induction ps with
  | nil => simp [analyzeMsg]
  | cons p rest ih =>
    obtain ⟨pid, us⟩ := p
    simp [analyzeMsg, Bool.or_eq_true, ih, List.exists_mem_cons_iff]

theorem analyzeAllParts_fst_iff (m : PartsMap) :
    (analyzeAllParts m).1 = true ↔
      ∃ e ∈ m, ∃ p ∈ e.2, (analyzeLoop e.1 p.1 p.2 "" 0).1 = true := by
  induction m with
  | nil => simp [analyzeAllParts]
  | cons e rest ih =>
    obtain ⟨mid, ps⟩ := e
    simp [analyzeAllParts, Bool.or_eq_true, ih, analyzeMsg_fst_iff,
      List.exists_mem_cons_iff]

/-! The sequencer appends updates at the end of the keyed history. -/

theorem lookupA_appendInner (ps : List (JVal × List PartUpdate)) (pid : JVal)
    (u : PartUpdate) :
    lookupA (appendInner ps pid u) pid
      = some ((lookupA ps pid).getD [] ++ [u]) := by
  induction ps with
  | nil => simp [appendInner, lookupA]
  | cons p rest ih =>
    obtain ⟨k, us⟩ := p
    by_cases h : k = pid
    · subst h
      simp [appendInner, lookupA]
    · simp [appendInner, lookupA, h, ih]

theorem partHistory_appendUpdate (m : PartsMap) (mid pid : JVal)
    (u : PartUpdate) :
    partHistory (appendUpdate m mid pid u) mid pid
      = partHistory m mid pid ++ [u] := by
  induction m with
  | nil => simp [appendUpdate, partHistory, lookupA, lookupA_appendInner]
  | cons e rest ih =>
    obtain ⟨k, ps⟩ := e
    by_cases h : k = mid
    · subst h
      simp [appendUpdate, partHistory, lookupA, lookupA_appendInner]
    · simp only [appendUpdate, if_neg h]
      simp only [partHistory, lookupA, if_neg h]
      exact ih

/-! Claim theorems. -/

/-- Counterexample to claim C1: the texts Hello and World form a violating
adjacent pair (both non-empty, the second does not start with the first) with
empty common prefix; the analyzer sets the erasure flag but records no
finding for the pair, instead of exactly one finding with empty common
prefix. -/
theorem claim_C1_counterexample :
    pairViolates "Hello" "World" = true ∧
    lcpString "Hello" "World" = "" ∧
    (analyzeLoop (JVal.jstr "m1") (JVal.jstr "p1")
      [upd "Hello", upd "World"] "" 0).1 = true ∧
    (analyzeLoop (JVal.jstr "m1") (JVal.jstr "p1")
      [upd "Hello", upd "World"] "" 0).2 = [] :=
  ⟨rfl, rfl, rfl, rfl⟩

/-- Claim C1 amended: for an adjacent violating pair (A, B) at position k of
a part history, the findings carrying that update number are exactly one
finding with the computed common prefix when A and B share a non-empty
prefix, and none at all when their common prefix is empty. -/
theorem claim_C1_amended (mid pid : JVal) (us : List PartUpdate) (k : Nat)
    (A B : String)
    (hA : ("" :: us.map (fun u => u.text)).get? k = some A)
    (hB : (us.map (fun u => u.text)).get? k = some B)
    (hAne : A ≠ "") (hBne : B ≠ "") (hV : pyStartswith B A = false) :
    (analyzeLoop mid pid us "" 0).2.filter (fun f => f.update_num == k + 1)
      = if lcpString A B = "" then []
        else [{ message_id := mid, part_id := pid, update_num := k + 1,
                prev := A, curr := B, commonPrefix := lcpString A B }] := by
  have hfil := analyzeLoop_filter mid pid us "" 0 k A B hA hB
  have h01 : (0 : Nat) + k + 1 = k + 1 := by omega
  rw [h01] at hfil
  rw [hfil]
  unfold pairFinding
  rw [if_pos ⟨hAne, hBne, hV⟩]
  by_cases hl : lcpString A B = ""
  · rw [if_neg (not_not_intro hl), if_pos hl]
    rfl
  · rw [if_pos hl, if_neg hl]
    rfl

/-- Witness for the amended claim C1 at the history Hello, Help. -/
theorem claim_C1_amended_witness :
    (analyzeLoop (JVal.jstr "m1") (JVal.jstr "p1")
        [upd "Hello", upd "Help"] "" 0).2.filter (fun f => f.update_num == 2)
      = if lcpString "Hello" "Help" = "" then []
        else [{ message_id := JVal.jstr "m1", part_id := JVal.jstr "p1",
                update_num := 2, prev := "Hello", curr := "Help",
                commonPrefix := lcpString "Hello" "Help" }] :=
  claim_C1_amended (JVal.jstr "m1") (JVal.jstr "p1")
    [upd "Hello", upd "Help"] 1 "Hello" "Help" rfl rfl
    (by decide) (by decide) (by decide)

/-- Counterexample to claim C2: a run whose single part history is Hello,
World sets the erasure flag while its findings list is empty, so the flag is
not equivalent to the findings list being non-empty. -/
theorem claim_C2_counterexample :
    (analyzeAllParts [(JVal.jstr "m1",
      [(JVal.jstr "p1", [upd "Hello", upd "World"])])]).1 = true ∧
    (analyzeAllParts [(JVal.jstr "m1",
      [(JVal.jstr "p1", [upd "Hello", upd "World"])])]).2 = [] :=
  ⟨rfl, rfl⟩

/-- Claim C2 amended: a non-empty findings list forces the erasure flag, and
the flag is set exactly when some part history contains a violating adjacent
pair; the flag can therefore be true with an empty findings list, namely when
every violating pair shares no prefix. -/
theorem claim_C2_amended (m : PartsMap) :
    ((analyzeAllParts m).2 ≠ [] → (analyzeAllParts m).1 = true) ∧
    ((analyzeAllParts m).1 = true ↔
      ∃ e ∈ m, ∃ p ∈ e.2, ∃ x ∈ adjPairs "" 0 (p.2.map (fun u => u.text)),
        pairViolates x.2.1 x.2.2 = true) := by
  constructor
  · intro hne
    by_contra hflag
    have hfalse : (analyzeAllParts m).1 = false := by
      revert hflag
      cases (analyzeAllParts m).1 <;> simp
    exact hne (analyzeAllParts_flag_false m hfalse)
  · rw [analyzeAllParts_fst_iff]
    constructor
    · rintro ⟨e, he, p, hp, hflag⟩
      rw [analyzeLoop_fst_eq, List.any_eq_true] at hflag
      obtain ⟨x, hx, hv⟩ := hflag
      exact ⟨e, he, p, hp, x, hx, hv⟩
    · rintro ⟨e, he, p, hp, x, hx, hv⟩
      refine ⟨e, he, p, hp, ?_⟩
      rw [analyzeLoop_fst_eq, List.any_eq_true]
      exact ⟨x, hx, hv⟩

/-- Witness for the amended claim C2: a run with one genuine finding has the
flag set. -/
theorem claim_C2_amended_witness :
    (analyzeAllParts [(JVal.jstr "m1",
      [(JVal.jstr "p1", [upd "Hello", upd "Help"])])]).1 = true :=
  (claim_C2_amended [(JVal.jstr "m1",
    [(JVal.jstr "p1", [upd "Hello", upd "Help"])])]).1 (by decide)

/-- Claim C4: the findings of a part history are the independent per-pair
contributions of every adjacent comparison in order, so a violation never
stops the scan, and the comparison at position k always pairs the text at k
against the immediately preceding observed text (the baseline is overwritten
after every update, violating or not). -/
theorem claim_C4_pairwise (mid pid : JVal) (us : List PartUpdate) :
    (analyzeLoop mid pid us "" 0).2
      = (adjPairs "" 0 (us.map (fun u => u.text))).filterMap
          (fun x => pairFinding mid pid x.1 x.2.1 x.2.2) ∧
    ∀ k A B, ("" :: us.map (fun u => u.text)).get? k = some A →
      (us.map (fun u => u.text)).get? k = some B →
      (adjPairs "" 0 (us.map (fun u => u.text))).get? k = some (k + 1, A, B) := by
  refine ⟨analyzeLoop_snd_eq mid pid us "" 0, ?_⟩
  intro k A B hA hB
  have := adjPairs_get (us.map (fun u => u.text)) "" 0 k A B hA hB
  simpa using this

/-- Witness for claim C4 at the history Hello, World: the second comparison
pairs World against Hello. -/
theorem claim_C4_pairwise_witness :
    (adjPairs "" 0 (([upd "Hello", upd "World"]).map (fun u => u.text))).get? 1
      = some (2, "Hello", "World") :=
  (claim_C4_pairwise (JVal.jstr "m1") (JVal.jstr "p1")
    [upd "Hello", upd "World"]).2 1 "Hello" "World" rfl rfl

/-- Claim C5: the scanned common prefix of two strings is a prefix of both,
every common prefix of both is a prefix of it (it is the longest), and on two
identical strings the scan returns the string itself. -/
theorem claim_C5_lcp (s t : String) :
    (lcpString s t).data <+: s.data ∧
    (lcpString s t).data <+: t.data ∧
    (∀ u : List Char, u <+: s.data → u <+: t.data →
      u <+: (lcpString s t).data) ∧
    lcpString s s = s := by
  refine ⟨?_, ?_, ?_, lcpString_self s⟩
  · rw [lcpString_data]
    exact lcpChars_prefix_left _ _
  · rw [lcpString_data]
    exact lcpChars_prefix_right _ _
  · intro u hu1 hu2
    rw [lcpString_data]
    exact lcpChars_longest _ _ u hu1 hu2

/-- Witness for claim C5 at concrete strings. -/
theorem claim_C5_lcp_witness :
    ("He".data <+: (lcpString "Help" "Hello").data) ∧
    lcpString "Help" "Help" = "Help" :=
  ⟨(claim_C5_lcp "Help" "Hello").2.2.1 "He".data
      ⟨['l', 'p'], rfl⟩ ⟨['l', 'l', 'o'], rfl⟩,
    (claim_C5_lcp "Help" "Help").2.2.2⟩

/-- Claim C7: an adjacent comparison in which either text is empty neither
violates nor yields a finding, and no recorded finding carries the update
number of such a comparison. -/
theorem claim_C7_empty_skip (mid pid : JVal) (us : List PartUpdate) (k : Nat)
    (A B : String)
    (hA : ("" :: us.map (fun u => u.text)).get? k = some A)
    (hB : (us.map (fun u => u.text)).get? k = some B)
    (h : A = "" ∨ B = "") :
    pairViolates A B = false ∧
    pairFinding mid pid (k + 1) A B = none ∧
    (analyzeLoop mid pid us "" 0).2.all
      (fun f => !(f.update_num == k + 1)) = true := by
  have hv : pairViolates A B = false := by
    rcases h with h | h <;> simp [pairViolates, h]
  refine ⟨hv, pairFinding_none_of_not_violates hv, ?_⟩
  rw [List.all_eq_true]
  intro f hf
  obtain ⟨k2, A2, B2, h1, h2, h3⟩ := mem_analyzeLoop mid pid us "" 0 f hf
  obtain ⟨hA2, hB2, hS2, hL2, rfl⟩ := pairFinding_some h3
  have hne : (0 + k2 + 1 : Nat) ≠ k + 1 := by
    intro hEq
    have hk : k2 = k := by omega
    subst hk
    rw [h1] at hA
    rw [h2] at hB
    obtain rfl := Option.some_inj.1 hA
    obtain rfl := Option.some_inj.1 hB
    rcases h with h | h
    · exact hA2 h
    · exact hB2 h
  simpa using hne

/-- Witness for claim C7 at the history Hi then the empty text. -/
theorem claim_C7_empty_skip_witness :
    pairViolates "Hi" "" = false ∧
    pairFinding (JVal.jstr "m1") (JVal.jstr "p1") 2 "Hi" "" = none ∧
    (analyzeLoop (JVal.jstr "m1") (JVal.jstr "p1")
      [upd "Hi", upd ""] "" 0).2.all (fun f => !(f.update_num == 2)) = true :=
  claim_C7_empty_skip (JVal.jstr "m1") (JVal.jstr "p1") [upd "Hi", upd ""]
    1 "Hi" "" rfl rfl (Or.inr rfl)

/-- Claim C8: two consecutive updates with identical texts are both appended
to the part history as distinct entries (both count toward the update total)
while their comparison neither violates nor yields a finding. -/
theorem claim_C8_duplicate (m : PartsMap) (mid pid : JVal)
    (u1 u2 : PartUpdate) (idx : Nat) (h : u1.text = u2.text) :
    partHistory (appendUpdate (appendUpdate m mid pid u1) mid pid u2) mid pid
      = partHistory m mid pid ++ [u1, u2] ∧
    pairFinding mid pid idx u1.text u2.text = none ∧
    pairViolates u1.text u2.text = false ∧
    analyzeLoop mid pid [u1, u2] "" 0 = (false, []) := by
  have hv : pairViolates u1.text u2.text = false := by
    rw [h]
    simp [pairViolates, pyStartswith_self]
  refine ⟨?_, pairFinding_none_of_not_violates hv, hv, ?_⟩
  · rw [partHistory_appendUpdate, partHistory_appendUpdate, List.append_assoc]
    rfl
  · by_cases he : u1.text = ""
    · have he2 : u2.text = "" := by rw [← h, he]
      simp [analyzeLoop, he, he2]
    · have he2 : u2.text ≠ "" := by rw [← h]; exact he
      have hs : pyStartswith u2.text u1.text = true := by
        rw [h]
        exact pyStartswith_self _
      simp [analyzeLoop, he, he2, hs]

/-- Witness for claim C8 with the text Hi repeated. -/
theorem claim_C8_duplicate_witness :
    partHistory (appendUpdate (appendUpdate [] (JVal.jstr "m1") (JVal.jstr "p1")
        (upd "Hi")) (JVal.jstr "m1") (JVal.jstr "p1") (upd "Hi"))
        (JVal.jstr "m1") (JVal.jstr "p1")
      = partHistory [] (JVal.jstr "m1") (JVal.jstr "p1") ++ [upd "Hi", upd "Hi"] ∧
    pairFinding (JVal.jstr "m1") (JVal.jstr "p1") 2 (upd "Hi").text
      (upd "Hi").text = none ∧
    pairViolates (upd "Hi").text (upd "Hi").text = false ∧
    analyzeLoop (JVal.jstr "m1") (JVal.jstr "p1") [upd "Hi", upd "Hi"] "" 0
      = (false, []) :=
  claim_C8_duplicate [] (JVal.jstr "m1") (JVal.jstr "p1")
    (upd "Hi") (upd "Hi") 2 rfl

/-- Counterexample to claim C9: the history ab then a yields a recorded
finding whose common prefix equals its current text, so the common prefix is
not a proper prefix of the current text. -/
theorem claim_C9_counterexample :
    ((analyzeLoop (JVal.jstr "m1") (JVal.jstr "p1")
        [upd "ab", upd "a"] "" 0).2.map
      (fun f => (f.commonPrefix, f.curr))) = [("a", "a")] := rfl

/-- Claim C9 amended: every recorded finding has non-empty previous and
current texts, a current text that does not start with the previous text,
and a non-empty common prefix that is a prefix of both texts and a proper
prefix of the previous text; it need not be proper in the current text. -/
theorem claim_C9_amended (mid pid : JVal) (us : List PartUpdate) (f : Finding)
    (hf : f ∈ (analyzeLoop mid pid us "" 0).2) :
    f.prev ≠ "" ∧ f.curr ≠ "" ∧ pyStartswith f.curr f.prev = false ∧
    f.commonPrefix ≠ "" ∧ f.commonPrefix.data <+: f.prev.data ∧
    f.commonPrefix ≠ f.prev ∧ f.commonPrefix.data <+: f.curr.data := by
  obtain ⟨k, A, B, h1, h2, h3⟩ := mem_analyzeLoop mid pid us "" 0 f hf
  obtain ⟨hA, hB, hS, hL, rfl⟩ := pairFinding_some h3
  refine ⟨hA, hB, hS, hL, ?_, ?_, ?_⟩
  · show (lcpString A B).data <+: A.data
    rw [lcpString_data]
    exact lcpChars_prefix_left _ _
  · show lcpString A B ≠ A
    intro hEq
    have ht := lcpString_eq_left A B hEq
    simp [ht] at hS
  · show (lcpString A B).data <+: B.data
    rw [lcpString_data]
    exact lcpChars_prefix_right _ _

/-- Witness for the amended claim C9 at the finding recorded for the history
Hello, Help. -/
theorem claim_C9_amended_witness :
    ("Hello" : String) ≠ "" ∧ ("Help" : String) ≠ "" ∧
    pyStartswith "Help" "Hello" = false ∧ ("Hel" : String) ≠ "" ∧
    ("Hel" : String).data <+: ("Hello" : String).data ∧
    ("Hel" : String) ≠ "Hello" ∧
    ("Hel" : String).data <+: ("Help" : String).data :=
  claim_C9_amended (JVal.jstr "m1") (JVal.jstr "p1")
    [upd "Hello", upd "Help"]
    { message_id := JVal.jstr "m1", part_id := JVal.jstr "p1",
      update_num := 2, prev := "Hello", curr := "Help",
      commonPrefix := "Hel" } (by decide)

/-- Claim C10: an empty text masks divergences across it: when positions k,
k+1 and k+2 of a part history hold the texts A, the empty string and B, no
recorded finding carries the update number of either comparison that
involves the empty text, even when B does not start with A. -/
theorem claim_C10_masked (mid pid : JVal) (us : List PartUpdate) (k : Nat)
    (A B : String) (hA : A ≠ "") (hB : B ≠ "")
    (h1 : (us.map (fun u => u.text)).get? k = some A)
    (h2 : (us.map (fun u => u.text)).get? (k + 1) = some "")
    (h3 : (us.map (fun u => u.text)).get? (k + 2) = some B) :
    (analyzeLoop mid pid us "" 0).2.all
      (fun f => !(f.update_num == k + 2) && !(f.update_num == k + 3)) = true := by
  rw [List.all_eq_true]
  intro f hf
  obtain ⟨k2, A2, B2, g1, g2, g3⟩ := mem_analyzeLoop mid pid us "" 0 f hf
  obtain ⟨hA2, hB2, hS2, hL2, rfl⟩ := pairFinding_some g3
  have hu1 : k2 ≠ k + 1 := by
    intro hk
    subst hk
    rw [h2] at g2
    exact hB2 (Option.some_inj.1 g2).symm
  have hu2 : k2 ≠ k + 2 := by
    intro hk
    subst hk
    have hidx : k + 2 = k + 1 + 1 := by omega
    rw [hidx] at g1
    rw [List.get?_cons_succ] at g1
    rw [h2] at g1
    exact hA2 (Option.some_inj.1 g1).symm
  simpa using ⟨hu1, hu2⟩

/-- Witness for claim C10 at the history Hello, empty, World. -/
theorem claim_C10_masked_witness :
    (analyzeLoop (JVal.jstr "m1") (JVal.jstr "p1")
        [upd "Hello", upd "", upd "World"] "" 0).2.all
      (fun f => !(f.update_num == 2) && !(f.update_num == 3)) = true :=
  claim_C10_masked (JVal.jstr "m1") (JVal.jstr "p1")
    [upd "Hello", upd "", upd "World"] 0 "Hello" "World"
    (by decide) (by decide) rfl rfl rfl

/-- Claim C3 at its failing input: a line whose payload is valid JSON but an
array (not an object) raises an AttributeError at the first attribute access
instead of being skipped, and its presence aborts the analysis of all
remaining lines; without the defective line the same remaining lines
contribute a second recorded update. -/
theorem claim_C3_crash :
    processLine parseStub "SSE line: data: [1, 2]"
      = Except.error PyError.attributeError ∧
    collectParts parseStub ["SSE line: data: good1", "SSE line: data: [1, 2]",
      "SSE line: data: good2"] [] = Except.error PyError.attributeError ∧
    collectParts parseStub ["SSE line: data: good1", "SSE line: data: good2"] []
      = Except.ok [(JVal.jstr "m1", [(JVal.jstr "p1",
          [{ text := "Hel", ptype := some (JVal.jstr "text"),
             fullData := partObj "m1" "p1" "Hel" },
           { text := "Hello", ptype := some (JVal.jstr "text"),
             fullData := partObj "m1" "p1" "Hello" }])])] :=
  ⟨rfl, rfl, rfl⟩

/-- Claim C6: a part update is recorded from a log line iff the line carries
the SSE marker with a non-empty payload, the payload parses as a JSON object
whose top-level type field is the part-update sentinel, properties and
properties.part are present as objects, and both messageID and id are
present under properties.part with truthy (for strings: non-empty) values;
a line or payload failing any of these conditions contributes no recorded
event. -/
theorem claim_C6_recorded_iff (parse : String → Except Unit JVal)
    (line : String) :
    (∃ ev, processLine parse line = Except.ok (some ev)) ↔
    (∃ payload fields pfs partfs mv pv,
      extractPayload line = some payload ∧
      parse payload = Except.ok (JVal.jobj fields) ∧
      jlookup fields "type" = some (JVal.jstr "message.part.updated") ∧
      jlookup fields "properties" = some (JVal.jobj pfs) ∧
      jlookup pfs "part" = some (JVal.jobj partfs) ∧
      jlookup partfs "messageID" = some mv ∧
      jlookup partfs "id" = some pv ∧
      truthy mv = true ∧ truthy pv = true) := by
  constructor
  · rintro ⟨ev, hev⟩
    cases hp : extractPayload line with
    | none => simp [processLine, hp] at hev
    | some payload =>
      cases hq : parse payload with
      | error e => simp [processLine, hp, hq] at hev
      | ok data =>
        have hred : processLine parse line = eventOfPayload data := by
          simp [processLine, hp, hq]
        rw [hred] at hev
        unfold eventOfPayload at hev
        cases data with
        | jobj fields =>
          simp only [dictGetOpt] at hev
          by_cases ht : jlookup fields "type"
              = some (JVal.jstr "message.part.updated")
          · rw [if_pos ht] at hev
            simp only [dictGetD] at hev
            cases hprops : jlookup fields "properties" with
            | none =>
              rw [hprops] at hev
              simp only [Option.getD] at hev
              simp [dictGetD, dictGetOpt, jlookup] at hev
            | some props =>
              rw [hprops] at hev
              simp only [Option.getD] at hev
              cases props with
              | jobj pfs =>
                simp only [dictGetD] at hev
                cases hpart : jlookup pfs "part" with
                | none =>
                  rw [hpart] at hev
                  simp only [Option.getD] at hev
                  simp [dictGetOpt, jlookup] at hev
                | some part =>
                  rw [hpart] at hev
                  simp only [Option.getD] at hev
                  cases part with
                  | jobj partfs =>
                    simp only [dictGetOpt, dictGetD] at hev
                    cases hmv : jlookup partfs "messageID" with
                    | none => rw [hmv] at hev; cases hev
                    | some mv =>
                      rw [hmv] at hev
                      cases hpv : jlookup partfs "id" with
                      | none => rw [hpv] at hev; cases hev
                      | some pv =>
                        rw [hpv] at hev
                        simp only [] at hev
                        by_cases htr : truthy mv && truthy pv
                        · rw [Bool.and_eq_true] at htr
                          exact ⟨payload, fields, pfs, partfs, mv, pv, rfl,
                            hq, ht, hprops, hpart, hmv, hpv, htr.1, htr.2⟩
                        · rw [if_neg htr] at hev
                          cases hev
                  | jnull => simp [dictGetOpt] at hev
                  | jbool b => simp [dictGetOpt] at hev
                  | jnum n => simp [dictGetOpt] at hev
                  | jstr s => simp [dictGetOpt] at hev
                  | jarr a => simp [dictGetOpt] at hev
              | jnull => simp [dictGetD] at hev
              | jbool b => simp [dictGetD] at hev
              | jnum n => simp [dictGetD] at hev
              | jstr s => simp [dictGetD] at hev
              | jarr a => simp [dictGetD] at hev
          · rw [if_neg ht] at hev
            cases hev
        | jnull => simp [dictGetOpt] at hev
        | jbool b => simp [dictGetOpt] at hev
        | jnum n => simp [dictGetOpt] at hev
        | jstr s => simp [dictGetOpt] at hev
        | jarr a => simp [dictGetOpt] at hev
  · rintro ⟨payload, fields, pfs, partfs, mv, pv, hp, hq, ht, hprops, hpart,
      hmv, hpv, htm, htp⟩
    refine ⟨{ message_id := mv, part_id := pv,
              update := { text := jtext ((jlookup partfs "text").getD (JVal.jstr "")),
                          ptype := jlookup partfs "type",
                          fullData := JVal.jobj partfs } }, ?_⟩
    have hred : processLine parse line = eventOfPayload (JVal.jobj fields) := by
      simp [processLine, hp, hq]
    rw [hred]
    simp only [eventOfPayload, dictGetOpt, dictGetD, Option.getD, ht, hprops,
      hpart, hmv, hpv, htm, htp, Bool.and_self, eq_self_iff_true, if_true]

end SseAnalyze
